import Mathlib

/-!
Verification of the `vfs-core` runtime (`src/src/lib.rs`): a shallow
embedding of the stack VM (`Machine`), its loader, the two-pass assembler
(`Assembler::compile_bef`) and the expression code generator
(`MiniCC::gen_expr`), together with theorems settling the specification
claims about them.

Conventions of the embedding:
* Machine words (`u64`) are `Nat` with explicit `% 2^64` where the Rust
  code wraps; memory bytes are `Nat` written modulo `2^8`.
* `Vec<u64>` stacks are Lean lists with the top of the stack at the head
  (`push` = cons, `pop` = uncons).
* `HashMap` tables are association lists with insert-replaces-in-place
  semantics (`vfsInsert`, `fdSet`); iteration order is never observed by
  the translated code.
* Rust panics (out-of-bounds indexing, `unwrap` on `None`) are modelled by
  a distinguished `StepOut.panic` outcome; `Result::Err` by `StepOut.err`.
-/

namespace VfsCore

/-- Two to the sixty-fourth, the `u64` modulus. -/
def W64 : Nat := 2 ^ 64

/-- `u64::wrapping_add`. -/
def wadd (a b : Nat) : Nat := (a + b) % W64

/-- `u64::wrapping_sub` on the `u64` representatives of `a` and `b`. -/
def wsub (a b : Nat) : Nat := (a % W64 + (W64 - b % W64)) % W64

/-- Read 8 little-endian bytes at `i` as a `u64`
    (`u64::from_le_bytes(memory[i..i+8])`); `none` models the Rust panic
    when `i + 8 > memory.len()`. -/
def readU64 (mem : List Nat) (i : Nat) : Option Nat :=
  match mem[i]?, mem[i+1]?, mem[i+2]?, mem[i+3]?,
        mem[i+4]?, mem[i+5]?, mem[i+6]?, mem[i+7]? with
  | some b0, some b1, some b2, some b3, some b4, some b5, some b6, some b7 =>
      some (b0 + 256 * (b1 + 256 * (b2 + 256 * (b3 + 256 * (b4 + 256 * (b5 + 256 * (b6 + 256 * b7)))))))
  | _, _, _, _, _, _, _, _ => none

/-- The 8 little-endian bytes of `v` as a `u64` (`v.to_le_bytes()`). -/
def le8 (v : Nat) : List Nat :=
  [v % 256, v / 256 % 256, v / 256 ^ 2 % 256, v / 256 ^ 3 % 256,
   v / 256 ^ 4 % 256, v / 256 ^ 5 % 256, v / 256 ^ 6 % 256, v / 256 ^ 7 % 256]

/-- Write the 8 little-endian bytes of `v` at `i`
    (`memory[i..i+8].copy_from_slice(&v.to_le_bytes())`); `none` models the
    panic when `i + 8 > memory.len()`. -/
def writeU64 (mem : List Nat) (i : Nat) (v : Nat) : Option (List Nat) :=
  if i + 8 ≤ mem.length then
    some ((((((((mem.set i (v % 256)).set (i+1) (v / 256 % 256)).set
      (i+2) (v / 256 ^ 2 % 256)).set (i+3) (v / 256 ^ 3 % 256)).set
      (i+4) (v / 256 ^ 4 % 256)).set (i+5) (v / 256 ^ 5 % 256)).set
      (i+6) (v / 256 ^ 6 % 256)).set (i+7) (v / 256 ^ 7 % 256))
  else none

/-- `while i < memory.len() && memory[i] != 0 { name.push(memory[i] as char); i += 1 }`
    (the OPEN syscall's path scan), with fuel `memory.length` bounding the
    remaining iterations. -/
def cStringAux (mem : List Nat) : Nat → Nat → String → String
  | 0, _, acc => acc
  | fuel + 1, i, acc =>
    match mem[i]? with
    | none => acc
    | some b => if b = 0 then acc else cStringAux mem fuel (i + 1) (acc.push (Char.ofNat b))

/-- The NUL- or end-of-memory-terminated string starting at `addr`. -/
def readCString (mem : List Nat) (addr : Nat) : String :=
  cStringAux mem mem.length addr ""

/-- `HashMap::get` over the association-list model of the VFS. -/
def vfsGet : List (String × List Nat) → String → Option (List Nat)
  | [], _ => none
  | (k, v) :: rest, key => if k = key then some v else vfsGet rest key

/-- `HashMap::insert` over the association-list model: replace in place, or
    append when the key is absent. -/
def vfsInsert : List (String × List Nat) → String → List Nat → List (String × List Nat)
  | [], key, val => [(key, val)]
  | (k, v) :: rest, key, val =>
    if k = key then (k, val) :: rest else (k, v) :: vfsInsert rest key val

/-- `HashMap::get` over the association-list model of the fd table. -/
def fdGet : List (Nat × String × Nat) → Nat → Option (String × Nat)
  | [], _ => none
  | (k, v) :: rest, key => if k = key then some v else fdGet rest key

/-- Update the entry of an existing fd (the effect of mutating through
    `fds.get_mut(&fd)`). -/
def fdSet : List (Nat × String × Nat) → Nat → String × Nat → List (Nat × String × Nat)
  | [], _, _ => []
  | (k, v) :: rest, key, val =>
    if k = key then (k, val) :: rest else (k, v) :: fdSet rest key val

/-- `HashMap::insert` on the fd table (used by OPEN). -/
def fdInsert : List (Nat × String × Nat) → Nat → String × Nat → List (Nat × String × Nat)
  | [], key, val => [(key, val)]
  | (k, v) :: rest, key, val =>
    if k = key then (k, val) :: rest else (k, v) :: fdInsert rest key val

/-- The VM state (`struct Machine`). Stacks keep their top at the head. -/
structure Machine where
  memory : List Nat
  stack : List Nat
  call_stack : List (Nat × Nat)
  ip : Nat
  bp : Nat
  sp : Nat
  vfs : List (String × List Nat)
  fds : List (Nat × String × Nat)
  next_fd : Nat
  brk : Nat
deriving Repr, DecidableEq

/-- `Machine::new()`. -/
def Machine.new : Machine where
  memory := List.replicate (1024 * 1024) 0
  stack := []
  call_stack := []
  ip := 0
  bp := 4096
  sp := 4096
  vfs := [("/dev/stdin", []), ("/dev/stdout", [])]
  fds := [(0, "/dev/stdin", 0), (1, "/dev/stdout", 0)]
  next_fd := 3
  brk := 512 * 1024

/-- Outcome of `Machine::step`: `Ok(running?)` with the mutated state,
    `Err("Err")` with the mutated state, or a Rust panic. -/
inductive StepOut where
  | ok : Bool → Machine → StepOut
  | err : Machine → StepOut
  | panic : StepOut
deriving Repr, DecidableEq

/-- The READ syscall's copy loop
    (`for i in 0..len { if *pos+i < file.len() && buf+i < memory.len() { … } else { break } }`),
    iterating the counter `i` and returning the mutated memory together
    with `read_bytes`. -/
def readLoop (file : List Nat) (pos buf : Nat) : Nat → Nat → List Nat → List Nat × Nat
  | 0, i, mem => (mem, i)
  | fuel + 1, i, mem =>
    if pos + i < file.length ∧ buf + i < mem.length then
      readLoop file pos buf fuel (i + 1) (mem.set (buf + i) (file.getD (pos + i) 0))
    else (mem, i)

/-- The WRITE syscall's copy loop
    (`for i in 0..len { if buf+i < memory.len() { … } }`): stdout appends,
    other files overwrite at the cursor and extend past the end; bytes with
    an out-of-range source address are skipped. -/
def writeLoop (mem : List Nat) (isStdout : Bool) (pos buf : Nat) : Nat → Nat → List Nat → List Nat
  | 0, _, file => file
  | fuel + 1, i, file =>
    let file' :=
      if buf + i < mem.length then
        if isStdout then file ++ [mem.getD (buf + i) 0]
        else if pos + i < file.length then file.set (pos + i) (mem.getD (buf + i) 0)
        else file ++ [mem.getD (buf + i) 0]
      else file
    writeLoop mem isStdout pos buf fuel (i + 1) file'

/-- The OPEN syscall body (`sys_num == 1`), after `addr` has been popped. -/
def sysOpen (m : Machine) (addr : Nat) : Machine :=
  let name := readCString m.memory addr
  let fd := m.next_fd
  let vfs' := if (vfsGet m.vfs name).isNone then vfsInsert m.vfs name [] else m.vfs
  { m with next_fd := m.next_fd + 1, vfs := vfs',
           fds := fdInsert m.fds fd (name, 0), stack := fd :: m.stack }

/-- The READ syscall body (`sys_num == 2`), after `fd`, `buf`, `len` have
    been popped; `none` models the `vfs.get(name).unwrap()` panic. -/
def sysRead (m : Machine) (fd buf len : Nat) : Option Machine :=
  match fdGet m.fds fd with
  | none => some { m with stack := 0 :: m.stack }
  | some (name, pos) =>
    match vfsGet m.vfs name with
    | none => none
    | some file =>
      let r := readLoop file pos buf len 0 m.memory
      -- fuel `len`, counter starting at 0: exactly `for i in 0..len`
      some { m with memory := r.1, fds := fdSet m.fds fd (name, pos + r.2),
                    stack := r.2 :: m.stack }

/-- The WRITE syscall body (`sys_num == 3`), after `fd`, `buf`, `len` have
    been popped; `none` models the `vfs.get_mut(name).unwrap()` panic. -/
def sysWrite (m : Machine) (fd buf len : Nat) : Option Machine :=
  match fdGet m.fds fd with
  | none => some { m with stack := 0 :: m.stack }
  | some (name, pos) =>
    match vfsGet m.vfs name with
    | none => none
    | some file =>
      let file' := writeLoop m.memory (name = "/dev/stdout") pos buf len 0 file
      let fds' := if name = "/dev/stdout" then m.fds else fdSet m.fds fd (name, pos + len)
      some { m with vfs := vfsInsert m.vfs name file', fds := fds',
                    stack := len :: m.stack }

/-- The SBRK syscall body (`sys_num == 4`): reinterpret the popped word as
    `i64` and move `brk` by it (wrapping `usize` arithmetic), returning the
    old break. -/
def sysSbrk (m : Machine) (v : Nat) : Machine :=
  let v' := v % W64
  let brk' := if v' = 0 then m.brk else (m.brk + v') % W64
  { m with brk := brk', stack := m.brk :: m.stack }

/-- `Machine::step`: fetch the byte at `ip`, advance `ip`, dispatch. -/
def step (m : Machine) : StepOut :=
  match m.memory[m.ip]? with
  | none => .panic
  | some op =>
    match op with
    | 0x00 => .ok false { m with ip := m.ip + 1 }
    | 0x10 =>
      match readU64 m.memory (m.ip + 1) with
      | none => .panic
      | some v => .ok true { m with ip := m.ip + 1 + 8, stack := v :: m.stack }
    | 0x20 =>
      match m.stack with
      | b :: a :: rest => .ok true { m with ip := m.ip + 1, stack := wadd a b :: rest }
      | _ => .panic
    | 0x21 =>
      match m.stack with
      | b :: a :: rest => .ok true { m with ip := m.ip + 1, stack := wsub a b :: rest }
      | _ => .panic
    | 0x24 =>
      match m.stack with
      | a :: rest => .ok true { m with ip := m.ip + 1, stack := (if a = 0 then 1 else 0) :: rest }
      | _ => .panic
    | 0x25 =>
      match m.stack with
      | b :: a :: rest => .ok true { m with ip := m.ip + 1, stack := (if a < b then 1 else 0) :: rest }
      | _ => .panic
    | 0x30 =>
      match readU64 m.memory (m.ip + 1) with
      | none => .panic
      | some dest => .ok true { m with ip := dest }
    | 0x31 =>
      match readU64 m.memory (m.ip + 1) with
      | none => .panic
      | some dest =>
        match m.stack with
        | c :: rest => .ok true { m with ip := if c = 0 then dest else m.ip + 1 + 8, stack := rest }
        | _ => .panic
    | 0x40 =>
      match readU64 m.memory (m.ip + 1) with
      | none => .panic
      | some dest =>
        .ok true { m with call_stack := (m.ip + 1 + 8, m.bp) :: m.call_stack,
                          bp := m.sp, ip := dest }
    | 0x42 =>
      match m.call_stack with
      | (ret_ip, old_bp) :: rest =>
        .ok true { m with sp := m.bp, bp := old_bp, ip := ret_ip, call_stack := rest }
      | [] => .ok false { m with ip := m.ip + 1 }
    | 0x50 => .ok true { m with ip := m.ip + 1, stack := m.bp :: m.stack }
    | 0x60 =>
      match readU64 m.memory (m.ip + 1) with
      | none => .panic
      | some off =>
        match readU64 m.memory (m.bp + off) with
        | none => .panic
        | some v => .ok true { m with ip := m.ip + 1 + 8, stack := v :: m.stack }
    | 0x61 =>
      match readU64 m.memory (m.ip + 1) with
      | none => .panic
      | some off =>
        match m.stack with
        | v :: rest =>
          match writeU64 m.memory (m.bp + off) v with
          | none => .panic
          | some mem' =>
            .ok true { m with ip := m.ip + 1 + 8, memory := mem', stack := rest,
                              sp := if m.bp + off + 8 > m.sp then m.bp + off + 8
                                    else m.sp }
        | [] => .panic
    | 0x62 =>
      match m.stack with
      | addr :: rest =>
        match readU64 m.memory addr with
        | none => .panic
        | some v => .ok true { m with ip := m.ip + 1, stack := v :: rest }
      | [] => .panic
    | 0x63 =>
      match m.stack with
      | addr :: v :: rest =>
        match writeU64 m.memory addr v with
        | none => .panic
        | some mem' => .ok true { m with ip := m.ip + 1, memory := mem', stack := rest }
      | _ => .panic
    | 0x70 =>
      match m.stack with
      | addr :: rest =>
        match m.memory[addr]? with
        | none => .panic
        | some b => .ok true { m with ip := m.ip + 1, stack := b :: rest }
      | [] => .panic
    | 0x71 =>
      match m.stack with
      | addr :: v :: rest =>
        if addr < m.memory.length then
          .ok true { m with ip := m.ip + 1, memory := m.memory.set addr (v % 256), stack := rest }
        else .panic
      | _ => .panic
    | 0x80 =>
      match m.stack with
      | sys_num :: s1 =>
        match sys_num with
        | 1 =>
          match s1 with
          | addr :: rest => .ok true (sysOpen { m with ip := m.ip + 1, stack := rest } addr)
          | [] => .panic
        | 2 =>
          match s1 with
          | fd :: buf :: len :: rest =>
            match sysRead { m with ip := m.ip + 1, stack := rest } fd buf len with
            | none => .panic
            | some m' => .ok true m'
          | _ => .panic
        | 3 =>
          match s1 with
          | fd :: buf :: len :: rest =>
            match sysWrite { m with ip := m.ip + 1, stack := rest } fd buf len with
            | none => .panic
            | some m' => .ok true m'
          | _ => .panic
        | 4 =>
          match s1 with
          | v :: rest => .ok true (sysSbrk { m with ip := m.ip + 1, stack := rest } v)
          | [] => .panic
        | _ => .ok true { m with ip := m.ip + 1, stack := 0 :: s1 }
      | [] => .panic
    | _ => .err { m with ip := m.ip + 1 }

/-- Outcome of running the machine for a bounded number of steps. -/
inductive RunState where
  | running : Machine → RunState
  | stopped : Machine → RunState
  | errored : Machine → RunState
  | panicked : RunState
deriving Repr, DecidableEq

/-- Run at most `n` steps of the driver loop `while vm.step() == Ok(true) {}`. -/
def runN : Nat → Machine → RunState
  | 0, m => .running m
  | n + 1, m =>
    match step m with
    | .ok true m' => runN n m'
    | .ok false m' => .stopped m'
    | .err m' => .errored m'
    | .panic => .panicked

/-- `d[a..b]` as a list (valid when `a ≤ b ≤ d.length`). -/
def slice (d : List Nat) (a b : Nat) : List Nat := (d.drop a).take (b - a)

/-- `mem[start..start+src.len()].copy_from_slice(src)` (valid when
    `start + src.length ≤ mem.length`). -/
def copyInto (mem : List Nat) (start : Nat) (src : List Nat) : List Nat :=
  mem.take start ++ src ++ mem.drop (start + src.length)

/-- `Machine::load`: read `code_size` from the header, copy the code to
    address 0, and, for images longer than 8192 bytes, copy the image tail
    to address 8192.  `none` models the Rust panics (short image,
    out-of-range slices); the function performs no other validation. -/
def load (mem : List Nat) (d : List Nat) : Option (List Nat) :=
  match d[8]?, d[9]?, d[10]?, d[11]? with
  | some b0, some b1, some b2, some b3 =>
    let sz := b0 + 256 * (b1 + 256 * (b2 + 256 * b3))
    if 16 + sz ≤ d.length ∧ sz ≤ mem.length then
      let mem1 := copyInto mem 0 (slice d 16 (16 + sz))
      if 8192 < d.length then
        if d.length ≤ mem1.length then
          some (copyInto mem1 8192 (slice d 8192 d.length))
        else none
      else some mem1
    else none
  | _, _, _, _ => none

/-- The 4-byte little-endian field of an image at offset `i` (used to state
    claims about the header's magic). -/
def readU32 (d : List Nat) (i : Nat) : Nat :=
  d.getD i 0 + 256 * (d.getD (i+1) 0 + 256 * (d.getD (i+2) 0 + 256 * d.getD (i+3) 0))

/-- A small machine whose next instruction is `SYSCALL` with unimplemented
    id 6 on top of the stack. -/
def mUnknownSys : Machine where
  memory := [0x80]
  stack := [6]
  call_stack := []
  ip := 0
  bp := 0
  sp := 0
  vfs := [("/dev/stdin", []), ("/dev/stdout", [])]
  fds := [(0, "/dev/stdin", 0), (1, "/dev/stdout", 0)]
  next_fd := 3
  brk := 0

/-- A small machine about to execute `MLOAD8` with an out-of-range address
    on the stack. -/
def mOobLoad8 : Machine where
  memory := [0x70]
  stack := [5]
  call_stack := []
  ip := 0
  bp := 0
  sp := 0
  vfs := []
  fds := []
  next_fd := 3
  brk := 0

/-- A small machine about to execute a READ syscall whose destination
    buffer (address 5) is outside its 1-byte memory. -/
def mOobRead : Machine where
  memory := [0x80]
  stack := [2, 0, 5, 1]
  call_stack := []
  ip := 0
  bp := 0
  sp := 0
  vfs := [("/dev/stdin", [65]), ("/dev/stdout", [])]
  fds := [(0, "/dev/stdin", 0), (1, "/dev/stdout", 0)]
  next_fd := 3
  brk := 0

/-- A 16-byte image whose magic field is `0x04030201` (not `0xB111E7`) and
    whose size fields are zero. -/
def badMagicImage : List Nat := [1, 2, 3, 4] ++ List.replicate 12 0

/-- A 20-byte memory of sevens used to observe the loader. -/
def mem20 : List Nat := List.replicate 20 7

/-- The execution-state configuration `Machine::new()` establishes before a
    run starts (everything except memory, VFS and fd table is fixed). -/
def freshStart (m : Machine) : Prop :=
  m.stack = [] ∧ m.call_stack = [] ∧ m.ip = 0 ∧ m.bp = 4096 ∧ m.sp = 4096 ∧
  m.next_fd = 3 ∧ m.brk = 512 * 1024

/-- A tiny fresh-start machine (HALT program). -/
def mFreshA : Machine where
  memory := [0x00]
  stack := []
  call_stack := []
  ip := 0
  bp := 4096
  sp := 4096
  vfs := [("/dev/stdin", [7]), ("/dev/stdout", [])]
  fds := [(0, "/dev/stdin", 0), (1, "/dev/stdout", 0)]
  next_fd := 3
  brk := 512 * 1024

/-- A second fresh-start machine assembled from different expressions but
    denoting the same inputs as `mFreshA`. -/
def mFreshB : Machine where
  memory := List.replicate 1 0x00
  stack := []
  call_stack := []
  ip := 0
  bp := 4096
  sp := 4096
  vfs := ("/dev/stdin", [7]) :: [("/dev/stdout", [])]
  fds := [(0, "/dev/stdin", 0), (1, "/dev/stdout", 0)]
  next_fd := 3
  brk := 512 * 1024

/-- The compiler's token type (`enum Token`). -/
inductive Token where
  | Int | Char | If | Else | While | Return | Syscall
  | Ident : String → Token
  | Num : Nat → Token
  | StrLit : String → Token
  | Plus | Minus | Mul | Div | Assign | Lt | Eq
  | LParen | RParen | LBrace | RBrace | LBracket | RBracket
  | Ampersand | Semicolon | Comma | EOF
deriving Repr, DecidableEq

/-- The compiler's expression AST (`enum Expr`). -/
inductive Expr where
  | Number : Nat → Expr
  | StringLit : String → Expr
  | Variable : String → Expr
  | Binary : Expr → Token → Expr → Expr
  | Call : String → List Expr → Expr
  | Syscall : List Expr → Expr
  | Deref : Expr → Expr
  | AddrOf : String → Expr
deriving Repr

/-- `struct VarInfo`. -/
structure VarInfo where
  offset : Nat
  is_byte : Bool
  is_ptr : Bool
deriving Repr, DecidableEq

/-- The code-generation state of `MiniCC` (the fields `gen_expr` touches). -/
structure CCSt where
  locals : List (String × VarInfo)
  local_offset : Nat
  label_count : Nat
  data : List Nat
  out : String
deriving Repr

/-- `HashMap::get` over the association-list model of `locals`. -/
def localsGet : List (String × VarInfo) → String → Option VarInfo
  | [], _ => none
  | (k, v) :: rest, key => if k = key then some v else localsGet rest key

mutual

/-- `MiniCC::gen_expr`; `none` models the `locals.get(..).unwrap()` panic
    on an undefined variable. -/
def genExpr : CCSt → Expr → Option CCSt
  | st, .Number n => some { st with out := st.out ++ "PUSH " ++ toString n ++ "\n" }
  | st, .StringLit s =>
    let addr := 8192 + st.data.length
    some { st with data := st.data ++ (s.toUTF8.data.toList.map (fun b => b.toNat)) ++ [0],
                   out := st.out ++ "PUSH " ++ toString addr ++ "\n" }
  | st, .Variable s =>
    match localsGet st.locals s with
    | none => none
    | some info => some { st with out := st.out ++ "LLOAD " ++ toString info.offset ++ "\n" }
  | st, .AddrOf s =>
    match localsGet st.locals s with
    | none => none
    | some info =>
      some { st with out := st.out ++ "GETBP\n" ++ "PUSH " ++ toString info.offset ++ "\nADD\n" }
  | st, .Deref e =>
    let isBytePtr :=
      match e with
      | .Variable name =>
        match localsGet st.locals name with
        | some info => info.is_ptr && info.is_byte
        | none => false
      | _ => false
    match genExpr st e with
    | none => none
    | some st' =>
      some (if isBytePtr then { st' with out := st'.out ++ "MLOAD8\n" }
            else { st' with out := st'.out ++ "MLOAD\n" })
  | st, .Call name args =>
    match genArgs st args with
    | none => none
    | some st' => some { st' with out := st'.out ++ "CALL " ++ name ++ "\n" }
  | st, .Syscall args =>
    match genArgsRev st args with
    | none => none
    | some st' => some { st' with out := st'.out ++ "SYSCALL\n" }
  | st, .Binary l op r =>
    match genExpr st l with
    | none => none
    | some st1 =>
      match genExpr st1 r with
      | none => none
      | some st2 =>
        match op with
        | .Plus => some { st2 with out := st2.out ++ "ADD\n" }
        | .Minus => some { st2 with out := st2.out ++ "SUB\n" }
        | .Eq => some { st2 with out := st2.out ++ "SUB\n" ++ "NOT\n" }
        | .Lt => some { st2 with out := st2.out ++ "LT\n" }
        | _ => some st2

/-- `for arg in args { self.gen_expr(arg) }` (function-call arguments). -/
def genArgs : CCSt → List Expr → Option CCSt
  | st, [] => some st
  | st, e :: rest =>
    match genExpr st e with
    | none => none
    | some st' => genArgs st' rest

/-- `for arg in args.into_iter().rev() { self.gen_expr(arg) }` (syscall
    arguments, generated last-to-first). -/
def genArgsRev : CCSt → List Expr → Option CCSt
  | st, [] => some st
  | st, e :: rest =>
    match genArgsRev st rest with
    | none => none
    | some st' => genExpr st' e

end

/-- An empty code-generation state. -/
def st0 : CCSt := ⟨[], 0, 0, [], ""⟩

/-- The state after generating `PUSH 2`. -/
def st1c : CCSt := { st0 with out := st0.out ++ "PUSH " ++ toString 2 ++ "\n" }

/-- The state after generating `PUSH 2; PUSH 5`. -/
def st2c : CCSt := { st1c with out := st1c.out ++ "PUSH " ++ toString 5 ++ "\n" }

/-- A machine about to execute `SUB; NOT` with operands 2 (below) and
    5 (top) on the value stack. -/
def mSubNot : Machine where
  memory := [0x21, 0x24]
  stack := [5, 2]
  call_stack := []
  ip := 0
  bp := 0
  sp := 0
  vfs := []
  fds := []
  next_fd := 3
  brk := 0

/-- The fd-table/VFS cursor invariant: every fd's cursor is at most the
    length of the file it names. -/
def FdInv (m : Machine) : Prop :=
  ∀ (fd : Nat) (name : String) (pos : Nat) (file : List Nat),
    fdGet m.fds fd = some (name, pos) → vfsGet m.vfs name = some file →
    pos ≤ file.length

/-- A machine about to WRITE 1 byte from out-of-range buffer address 5 on
    fd 3, whose file `f` is empty. -/
def mCursorBug : Machine where
  memory := [0x80]
  stack := [3, 3, 5, 1]
  call_stack := []
  ip := 0
  bp := 0
  sp := 0
  vfs := [("f", [])]
  fds := [(3, "f", 0)]
  next_fd := 4
  brk := 0

/-- A machine with one open fd on a 1-byte stdin file, used to witness the
    cursor invariant through READ and WRITE. -/
def mC7 : Machine where
  memory := [9]
  stack := []
  call_stack := []
  ip := 0
  bp := 0
  sp := 0
  vfs := [("/dev/stdin", [65])]
  fds := [(0, "/dev/stdin", 0)]
  next_fd := 3
  brk := 0

/-- `mC7` after `sysRead mC7 0 0 1`. -/
def mC7r : Machine := { mC7 with memory := [65], fds := [(0, "/dev/stdin", 1)], stack := [1] }

/-- `mC7` after `sysWrite mC7 0 0 1`. -/
def mC7w : Machine :=
  { mC7 with vfs := [("/dev/stdin", [9])], fds := [(0, "/dev/stdin", 1)], stack := [1] }

/-- `t.ends_with(':')`. -/
def endsColon (s : String) : Bool :=
  match s.data.getLast? with
  | some c => c = ':'
  | none => false

/-- `t.trim_end_matches(':')`. -/
def trimColons (s : String) : String :=
  ⟨(s.data.reverse.dropWhile (fun c => c = ':')).reverse⟩

/-- Pass 1's per-token address increment
    (`addr += match *t { "PUSH"|… => 9, "HALT"|… => 1, _ => 0 }`).
    Note that `MUL` and `DIV` are counted here with 1 byte. -/
def tokSize (t : String) : Nat :=
  if t = "PUSH" ∨ t = "JMP" ∨ t = "JZ" ∨ t = "LLOAD" ∨ t = "LSTORE" ∨ t = "CALL" then 9
  else if t = "HALT" ∨ t = "ADD" ∨ t = "SUB" ∨ t = "MUL" ∨ t = "DIV" ∨ t = "LT" ∨
          t = "RET" ∨ t = "GETBP" ∨ t = "MLOAD" ∨ t = "MSTORE" ∨ t = "MLOAD8" ∨
          t = "MSTORE8" ∨ t = "NOT" ∨ t = "SYSCALL" then 1
  else 0

/-- `HashMap::get` on the label table. -/
def lblGet : List (String × Nat) → String → Option Nat
  | [], _ => none
  | (k, v) :: rest, key => if k = key then some v else lblGet rest key

/-- `HashMap::insert` on the label table. -/
def lblInsert : List (String × Nat) → String → Nat → List (String × Nat)
  | [], key, val => [(key, val)]
  | (k, v) :: rest, key, val =>
    if k = key then (k, val) :: rest else (k, v) :: lblInsert rest key val

/-- The assembler's pass 1: walk the tokens recording label addresses and
    advancing the running address by each token's encoded size. -/
def pass1 : List String → Nat → List (String × Nat) → List (String × Nat) × Nat
  | [], addr, labels => (labels, addr)
  | t :: rest, addr, labels =>
    if endsColon t then pass1 rest addr (lblInsert labels (trimColons t) addr)
    else pass1 rest (addr + tokSize t) labels

/-- `tokens[i].parse::<u64>()`: optional leading `'+'`, at least one digit,
    all digits, value within `u64`. -/
def parseU64 (s : String) : Option Nat :=
  let ds := if s.data.head? = some '+' then s.data.drop 1 else s.data
  if (!ds.isEmpty) && ds.all (fun c => c.isDigit) then
    let v := ds.foldl (fun acc c => acc * 10 + (c.toNat - 48)) 0
    if v < W64 then some v else none
  else none

/-- How pass 2 treats a token: an opcode with a u64 immediate (parsed
    number or label reference), a plain 1-byte opcode, or anything else
    (labels, immediate operands, junk — and also `MUL`/`DIV`, which have
    no pass-2 arm). The `TokKind` table transcribes pass 2's match arms. -/
inductive TokKind where
  | imm : Nat → Bool → TokKind
  | plain : Nat → TokKind
  | other : TokKind
deriving Repr, DecidableEq

/-- The pass-2 match arms of `Assembler::compile_bef`, token by token. -/
def classify (t : String) : TokKind :=
  if t = "HALT" then .plain 0x00
  else if t = "PUSH" then .imm 0x10 false
  else if t = "ADD" then .plain 0x20
  else if t = "SUB" then .plain 0x21
  else if t = "NOT" then .plain 0x24
  else if t = "LT" then .plain 0x25
  else if t = "JMP" then .imm 0x30 true
  else if t = "JZ" then .imm 0x31 true
  else if t = "CALL" then .imm 0x40 true
  else if t = "RET" then .plain 0x42
  else if t = "GETBP" then .plain 0x50
  else if t = "LLOAD" then .imm 0x60 false
  else if t = "LSTORE" then .imm 0x61 false
  else if t = "MLOAD" then .plain 0x62
  else if t = "MSTORE" then .plain 0x63
  else if t = "MLOAD8" then .plain 0x70
  else if t = "MSTORE8" then .plain 0x71
  else if t = "SYSCALL" then .plain 0x80
  else .other

/-- The assembler's pass 2: emit opcode bytes, consuming the following
    token as immediate for `PUSH`/`LLOAD`/`LSTORE` (parsed decimal) and
    `JMP`/`JZ`/`CALL` (label lookup). `none` models the Rust panics:
    missing operand token, unparsable number, unknown label. -/
def pass2 (labels : List (String × Nat)) : List String → Option (List Nat)
  | [] => some []
  | t :: rest =>
    match classify t with
    | .plain op =>
      match pass2 labels rest with
      | none => none
      | some code => some (op :: code)
    | .imm op isLbl =>
      match rest with
      | [] => none
      | u :: rest' =>
        match (if isLbl then lblGet labels u else parseU64 u) with
        | none => none
        | some v =>
          match pass2 labels rest' with
          | none => none
          | some code => some (op :: (le8 v ++ code))
    | .other => pass2 labels rest

/-- No token of the stream is `MUL` or `DIV` (whose sizes disagree between
    the passes). -/
def noMulDiv (tokens : List String) : Bool :=
  tokens.all (fun t => t != "MUL" && t != "DIV")

/-- Is a token an opcode that consumes an immediate operand? -/
def isImm : TokKind → Bool
  | .imm _ _ => true
  | _ => false

/-- Every token that follows an immediate-consuming opcode is inert for
    pass 1 (its `tokSize` is 0, i.e. it is not itself a mnemonic). -/
def opsOk : List String → Bool
  | [] => true
  | t :: rest =>
    (!(isImm (classify t)) || tokSize (rest.headD "") == 0) && opsOk rest

/-- A small assembly unit for witnessing the pass-size agreement. -/
def asmTokens : List String := ["main:", "PUSH", "5", "CALL", "main", "HALT"]

/-- The `n` bytes of memory starting at `a` (with 0 past the end). -/
def extract (mem : List Nat) (a n : Nat) : List Nat :=
  (List.range n).map (fun i => mem.getD (a + i) 0)

/-- The saved base pointers on the call stack descend from the current
    `bp`: each saved `bp` is at most the one of the frame above it. -/
def bpChain : List (Nat × Nat) → Nat → Prop
  | [], _ => True
  | (_, b) :: rest, cur => b ≤ cur ∧ bpChain rest b

/-- The frame discipline invariant: `bp ≤ sp` and the call stack's saved
    base pointers descend. -/
def FrameInv (m : Machine) : Prop :=
  m.bp ≤ m.sp ∧ bpChain m.call_stack m.bp

/-- The machine is inside a call whose frame `(retIp, B)` sits on the call
    stack directly above `base`, with the frame discipline intact. -/
def InCall (B retIp : Nat) (base : List (Nat × Nat)) (m : Machine) : Prop :=
  (∃ pre, m.call_stack = pre ++ (retIp, B) :: base) ∧ FrameInv m

/-- A machine about to execute `CALL 10` with an empty call stack. -/
def mC5 : Machine where
  memory := [0x40, 10, 0, 0, 0, 0, 0, 0, 0, 0x00, 0x00]
  stack := []
  call_stack := []
  ip := 0
  bp := 0
  sp := 0
  vfs := []
  fds := []
  next_fd := 3
  brk := 0

/-- A machine for the VFS round-trip witness: bytes 65, 66 at address 0,
    a NUL at address 2 (so the path at address 2 is the empty string). -/
def mC6 : Machine where
  memory := [65, 66, 0, 0]
  stack := []
  call_stack := []
  ip := 0
  bp := 0
  sp := 0
  vfs := [("/dev/stdin", []), ("/dev/stdout", [])]
  fds := [(0, "/dev/stdin", 0), (1, "/dev/stdout", 0)]
  next_fd := 3
  brk := 0

end VfsCore

namespace VfsCore

/-! ## Theorems -/

/-- Helper: fetching past the end of memory is a Rust panic, not a VM error. -/
theorem step_fetch_oob (m : Machine) (h : m.memory.length ≤ m.ip) :
    step m = .panic := by
  have : m.memory[m.ip]? = none := List.getElem?_eq_none h
  simp [step, this]

/-- Helper: a READ whose destination buffer starts out of range copies
    nothing and reports 0 bytes. -/
theorem readLoop_buf_oob (file : List Nat) (pos buf len i : Nat) (mem : List Nat)
    (h : mem.length ≤ buf) : readLoop file pos buf len i mem = (mem, i) := by
  cases len with
  | zero => rfl
  | succ fuel => rw [readLoop, if_neg]; omega

/-- **C1** (corrected).  The interpreter's fetch, immediate, local and
    heap accesses are *not* bounds-checked: an out-of-range one is a host
    panic (`index out of range`), not a `SegmentationFault` result — no
    such error kind exists in the code.  Only the syscall buffer accesses
    are checked per byte, and a READ whose buffer is out of range silently
    returns a short count and continues instead of faulting. -/
theorem c1_memory_access_amended :
    (∀ m : Machine, m.memory.length ≤ m.ip → step m = .panic) ∧
    (∀ (m : Machine) (a : Nat) (rest : List Nat),
      m.memory[m.ip]? = some 0x70 → m.stack = a :: rest →
      m.memory.length ≤ a → step m = .panic) ∧
    (∀ (m : Machine) (fd buf len : Nat) (rest : List Nat) (name : String)
        (pos : Nat) (file : List Nat),
      m.memory[m.ip]? = some 0x80 → m.stack = 2 :: fd :: buf :: len :: rest →
      fdGet m.fds fd = some (name, pos) → vfsGet m.vfs name = some file →
      m.memory.length ≤ buf →
      step m = .ok true { m with ip := m.ip + 1,
                                 fds := fdSet m.fds fd (name, pos),
                                 stack := 0 :: rest }) := by
  refine ⟨step_fetch_oob, ?_, ?_⟩
  · intro m a rest hop hst ha
    have : m.memory[a]? = none := List.getElem?_eq_none ha
    simp [step, hop, hst, this]
  · intro m fd buf len rest name pos file hop hst hfd hv hbuf
    simp [step, hop, hst, sysRead, hfd, hv, readLoop_buf_oob _ _ _ _ _ _ hbuf]

/-- Witness for C1's amended theorem: concrete out-of-range fetch, MLOAD8
    and READ-buffer scenarios. -/
theorem c1_memory_access_amended_witness :
    step { mOobLoad8 with ip := 1 } = .panic ∧
    step mOobLoad8 = .panic ∧
    step mOobRead = .ok true { mOobRead with ip := 1,
                                             fds := fdSet mOobRead.fds 0 ("/dev/stdin", 0),
                                             stack := [0] } :=
  ⟨c1_memory_access_amended.1 _ (by decide),
   c1_memory_access_amended.2.1 mOobLoad8 5 [] (by decide) (by decide) (by decide),
   c1_memory_access_amended.2.2 mOobRead 0 5 1 [] "/dev/stdin" 0 [65]
     (by decide) (by decide) (by decide) (by decide) (by decide)⟩

/-- **C1** counterexample: an out-of-range MLOAD8 is a host panic rather
    than a raised `SegmentationFault`, and a READ syscall whose buffer is
    out of range continues normally with count 0 — no fault, no halt. -/
theorem c1_counterexample :
    step mOobLoad8 = .panic ∧
    step mOobRead = .ok true { mOobRead with ip := 1, stack := [0] } := by
  decide

/-- **C2** (confirmed).  The interpreter is deterministic: two runs of the
    same bytecode from identical initial memory, identical VFS contents
    (including the stdin buffer) and the same fd table — with the
    execution registers in the fresh-start configuration of
    `Machine::new()` — are identical after any number of steps: same
    memory, VFS (hence stdout), fd table, value stack, call stack and
    registers. -/
theorem c2_determinism (n : Nat) (m1 m2 : Machine)
    (hmem : m1.memory = m2.memory) (hvfs : m1.vfs = m2.vfs)
    (hfds : m1.fds = m2.fds) (h1 : freshStart m1) (h2 : freshStart m2) :
    runN n m1 = runN n m2 := by
  obtain ⟨s1, c1, i1, b1, p1, f1, k1⟩ := h1
  obtain ⟨s2, c2, i2, b2, p2, f2, k2⟩ := h2
  have : m1 = m2 := by
    cases m1
    cases m2
    simp_all
  rw [this]

/-- Witness for C2: two concretely equal fresh machines. -/
theorem c2_determinism_witness : runN 3 mFreshA = runN 3 mFreshB :=
  c2_determinism 3 mFreshA mFreshB (by decide) (by decide) (by decide)
    (by constructor <;> simp [mFreshA]) (by constructor <;> simp [mFreshB])

/-- **C3** (corrected).  `Machine::load` performs no validation at all: it
    never inspects the magic field and has no `InvalidBinary` error (its
    only failure mode is a host panic on out-of-range slices).  Any image
    of length between 16 and 8192 whose `code_size` field is zero loads
    successfully — regardless of its magic — and leaves memory unchanged. -/
theorem c3_load_amended (mem d : List Nat)
    (h8 : d[8]? = some 0) (h9 : d[9]? = some 0)
    (h10 : d[10]? = some 0) (h11 : d[11]? = some 0)
    (hlen : 16 ≤ d.length) (hsmall : d.length ≤ 8192) :
    load mem d = some mem := by
  simp only [load, h8, h9, h10, h11]
  rw [if_pos (by omega), if_neg (by omega)]
  simp [copyInto, slice]

/-- Witness for C3's amended theorem at the bad-magic image. -/
theorem c3_load_amended_witness : load mem20 badMagicImage = some mem20 :=
  c3_load_amended mem20 badMagicImage (by decide) (by decide) (by decide)
    (by decide) (by decide) (by decide)

/-- **C3** counterexample: a 16-byte image whose magic is `0x04030201`
    (not `0xB111E7`) loads successfully with no error, refuting "load
    succeeds only if the magic field matches". -/
theorem c3_counterexample :
    load mem20 badMagicImage = some mem20 ∧ readU32 badMagicImage 0 ≠ 0xB111E7 := by
  decide

/-- **C8** (corrected).  A SYSCALL whose popped id is not one of the four
    implemented ids (1 OPEN, 2 READ, 3 WRITE, 4 SBRK — id 5 is *not*
    implemented) pushes 0 and continues execution; the code has no
    `UnknownSyscall` error at all. -/
theorem c8_unknown_syscall_amended (m : Machine) (id : Nat) (rest : List Nat)
    (hop : m.memory[m.ip]? = some 0x80) (hst : m.stack = id :: rest)
    (h1 : id ≠ 1) (h2 : id ≠ 2) (h3 : id ≠ 3) (h4 : id ≠ 4) :
    step m = .ok true { m with ip := m.ip + 1, stack := 0 :: rest } := by
  rcases id with _ | _ | _ | _ | _ | k
  · simp [step, hop, hst]
  · exact absurd rfl h1
  · exact absurd rfl h2
  · exact absurd rfl h3
  · exact absurd rfl h4
  · simp [step, hop, hst]

/-- Witness for C8's amended theorem: syscall id 6 pushes 0 and continues. -/
theorem c8_unknown_syscall_amended_witness :
    step mUnknownSys = .ok true { mUnknownSys with ip := 1, stack := [0] } :=
  c8_unknown_syscall_amended mUnknownSys 6 [] (by decide) (by decide)
    (by decide) (by decide) (by decide) (by decide)

/-- **C8** counterexample: syscall id 6 is not an implemented id, yet the
    machine does not halt with `UnknownSyscall` — it pushes 0 and keeps
    running. -/
theorem c8_counterexample :
    step mUnknownSys = .ok true { mUnknownSys with ip := 1, stack := [0] } ∧
    (6 : Nat) ∉ ([1, 2, 3, 4, 5] : List Nat) := by
  decide

/-- **C10** (confirmed).  A READ or WRITE syscall whose popped fd is absent
    from the fd table pushes 0 and otherwise changes nothing: the record
    update below keeps memory, VFS, fd table, `bp`, `sp`, `brk`, `next_fd`
    and the call stack of `m`, only consuming the four argument words and
    pushing the 0 result while `ip` moves past the SYSCALL opcode; no error
    is raised and execution continues. -/
theorem c10_bad_fd_pushes_zero (m : Machine) (sn fd buf len : Nat) (rest : List Nat)
    (hop : m.memory[m.ip]? = some 0x80)
    (hst : m.stack = sn :: fd :: buf :: len :: rest)
    (hsn : sn = 2 ∨ sn = 3) (hfd : fdGet m.fds fd = none) :
    step m = .ok true { m with ip := m.ip + 1, stack := 0 :: rest } := by
  rcases hsn with rfl | rfl <;> simp [step, hop, hst, sysRead, sysWrite, hfd]

/-- Witness for C10: a READ on unopened fd 9 returns 0 and continues. -/
theorem c10_bad_fd_pushes_zero_witness :
    step { mOobRead with stack := [2, 9, 0, 1] } =
      .ok true { mOobRead with ip := 1, stack := [0] } :=
  c10_bad_fd_pushes_zero { mOobRead with stack := [2, 9, 0, 1] } 2 9 0 1 []
    (by decide) (by decide) (Or.inl rfl) (by decide)

/-- Helper: a wrapping `u64` subtraction is zero exactly on equal operands. -/
theorem wsub_eq_zero_iff (a b : Nat) (ha : a < W64) (hb : b < W64) :
    wsub a b = 0 ↔ a = b := by
  have h : (2 : Nat) ^ 64 = 18446744073709551616 := by norm_num
  simp only [wsub, W64, h] at *
  omega

/-- **C9** (confirmed).  `MiniCC::gen_expr` compiles `a == b` as the code
    of `a`, then the code of `b`, then `SUB` then `NOT`; and under the VM's
    wrapping `SUB` and zero-test `NOT`, running those two opcodes on
    operands `a` (below) and `b` (top) leaves 1 on the stack exactly when
    the two `u64` values are equal, and 0 otherwise. -/
theorem c9_eq_codegen :
    (∀ (st st1 st2 : CCSt) (a b : Expr),
      genExpr st a = some st1 → genExpr st1 b = some st2 →
      genExpr st (.Binary a .Eq b) =
        some { st2 with out := st2.out ++ "SUB\n" ++ "NOT\n" }) ∧
    (∀ (m : Machine) (a b : Nat) (rest : List Nat),
      m.memory[m.ip]? = some 0x21 → m.memory[m.ip + 1]? = some 0x24 →
      m.stack = b :: a :: rest → a < W64 → b < W64 →
      step m = .ok true { m with ip := m.ip + 1, stack := wsub a b :: rest } ∧
      step { m with ip := m.ip + 1, stack := wsub a b :: rest } =
        .ok true { m with ip := m.ip + 1 + 1,
                          stack := (if a = b then 1 else 0) :: rest }) := by
  constructor
  · intro st st1 st2 a b h1 h2
    simp [genExpr, h1, h2]
  · intro m a b rest h21 h24 hst ha hb
    constructor
    · simp [step, h21, hst]
    · have hz := wsub_eq_zero_iff a b ha hb
      simp only [step, h24]
      by_cases hab : a = b
      · simp [hab, hz.2 hab, hab ▸ hz.2 hab]
      · have : wsub a b ≠ 0 := fun h => hab (hz.1 h)
        simp [this, hab]

/-- Witness for C9: `2 == 5` compiles to `PUSH 2; PUSH 5; SUB; NOT`, and
    the machine leaves 0 on the stack for the unequal operands 2 and 5. -/
theorem c9_eq_codegen_witness :
    genExpr st0 (.Binary (.Number 2) .Eq (.Number 5)) =
      some { st2c with out := st2c.out ++ "SUB\n" ++ "NOT\n" } ∧
    step mSubNot = .ok true { mSubNot with ip := 1, stack := [wsub 2 5] } ∧
    step { mSubNot with ip := 1, stack := [wsub 2 5] } =
      .ok true { mSubNot with ip := 2, stack := [0] } := by
  have h1 : genExpr st0 (.Number 2) = some st1c := by simp [genExpr, st1c]
  have h2 : genExpr st1c (.Number 5) = some st2c := by simp [genExpr, st2c]
  have hm := c9_eq_codegen.2 mSubNot 2 5 [] (by decide) (by decide) rfl
    (by norm_num [W64]) (by norm_num [W64])
  exact ⟨c9_eq_codegen.1 st0 st1c st2c _ _ h1 h2, hm.1, by simpa using hm.2⟩

/-- Helper: the READ loop never moves the cursor past the file length. -/
theorem readLoop_count_le (file : List Nat) (pos buf : Nat) :
    ∀ (fuel i : Nat) (mem : List Nat), pos + i ≤ file.length →
      pos + (readLoop file pos buf fuel i mem).2 ≤ file.length := by
  intro fuel
  induction fuel with
  | zero => intro i mem h; simpa [readLoop] using h
  | succ n ih =>
    intro i mem h
    rw [readLoop]
    split
    · next hc => exact ih (i + 1) _ (by omega)
    · simpa using h

/-- Helper: the WRITE loop never shrinks a file. -/
theorem writeLoop_len_mono (mem : List Nat) (so : Bool) (pos buf : Nat) :
    ∀ (fuel i : Nat) (file : List Nat),
      file.length ≤ (writeLoop mem so pos buf fuel i file).length := by
  intro fuel
  induction fuel with
  | zero => intro i file; simp [writeLoop]
  | succ n ih =>
    intro i file
    rw [writeLoop]
    refine le_trans ?_ (ih (i + 1) _)
    split_ifs <;> simp

/-- Helper: a WRITE whose source buffer lies fully in memory leaves the
    file at least `pos + i + fuel` long (non-stdout case). -/
theorem writeLoop_len_write (mem : List Nat) (pos buf : Nat) :
    ∀ (fuel i : Nat) (file : List Nat),
      pos + i ≤ file.length → buf + i + fuel ≤ mem.length →
      pos + i + fuel ≤ (writeLoop mem false pos buf fuel i file).length := by
  intro fuel
  induction fuel with
  | zero => intro i file h _; simpa [writeLoop] using h
  | succ n ih =>
    intro i file h hbuf
    rw [writeLoop]
    have hb : buf + i < mem.length := by omega
    simp only [hb, if_true, Bool.false_eq_true, if_false]
    by_cases hp : pos + i < file.length
    · rw [if_pos hp]
      have hrec := ih (i + 1) (file.set (pos + i) (mem.getD (buf + i) 0))
        (by rw [List.length_set]; omega) (by omega)
      omega
    · rw [if_neg hp]
      have hrec := ih (i + 1) (file ++ [mem.getD (buf + i) 0])
        (by rw [List.length_append, List.length_singleton]; omega) (by omega)
      omega

/-- Helper: inverting a lookup through `fdSet`. -/
theorem fdGet_fdSet_cases (l : List (Nat × String × Nat)) (k : Nat) (v : String × Nat)
    (k' : Nat) (w : String × Nat) (h : fdGet (fdSet l k v) k' = some w) :
    (k' = k ∧ w = v) ∨ fdGet l k' = some w := by
  induction l with
  | nil => simp [fdSet, fdGet] at h
  | cons p rest ih =>
    obtain ⟨pk, pv⟩ := p
    by_cases hk : pk = k
    · subst hk
      rw [fdSet, if_pos rfl] at h
      rw [fdGet] at h
      by_cases hk' : pk = k'
      · subst hk'
        rw [if_pos rfl] at h
        exact Or.inl ⟨rfl, (Option.some_inj.1 h).symm⟩
      · rw [if_neg hk'] at h
        exact Or.inr (by rw [fdGet, if_neg hk']; exact h)
    · rw [fdSet, if_neg hk] at h
      rw [fdGet] at h
      by_cases hk' : pk = k'
      · subst hk'
        rw [if_pos rfl] at h
        exact Or.inr (by rw [fdGet, if_pos rfl]; exact h)
      · rw [if_neg hk'] at h
        rcases ih h with h1 | h2
        · exact Or.inl h1
        · exact Or.inr (by rw [fdGet, if_neg hk']; exact h2)

/-- Helper: lookup after `vfsInsert` is lookup in the updated table. -/
theorem vfsGet_vfsInsert (l : List (String × List Nat)) (k : String) (v : List Nat)
    (k' : String) : vfsGet (vfsInsert l k v) k' = if k = k' then some v else vfsGet l k' := by
  induction l with
  | nil => simp [vfsInsert, vfsGet]
  | cons p rest ih =>
    obtain ⟨pk, pv⟩ := p
    by_cases hk : pk = k
    · subst hk
      rw [vfsInsert, if_pos rfl]
      by_cases hk' : pk = k'
      · rw [vfsGet, if_pos hk', if_pos hk']
      · rw [vfsGet, if_neg hk', if_neg hk', vfsGet, if_neg hk']
    · rw [vfsInsert, if_neg hk]
      by_cases hk' : pk = k'
      · have : ¬ k = k' := fun h => hk (h ▸ hk')
        rw [vfsGet, if_pos hk', if_neg this, vfsGet, if_pos hk']
      · rw [vfsGet, if_neg hk', ih, vfsGet, if_neg hk']

/-- **C7** (corrected).  The cursor invariant `cursor ≤ len(file)` is
    preserved by every READ syscall, and by every WRITE syscall whose
    source buffer `[buf, buf+len)` lies within memory.  (A WRITE with an
    out-of-range buffer breaks it: the skipped bytes are never written but
    the cursor still advances by `len` — see the counterexample.) -/
theorem c7_cursor_amended :
    (∀ (m : Machine) (fd buf len : Nat) (m' : Machine),
      FdInv m → sysRead m fd buf len = some m' → FdInv m') ∧
    (∀ (m : Machine) (fd buf len : Nat) (m' : Machine),
      FdInv m → buf + len ≤ m.memory.length → sysWrite m fd buf len = some m' →
      FdInv m') := by
  constructor
  · intro m fd buf len m' hinv hr
    rcases h1 : fdGet m.fds fd with _ | ⟨name, pos⟩
    · simp only [sysRead, h1] at hr
      obtain rfl := Option.some_inj.1 hr
      intro fd' n' p' f' hg hv
      exact hinv fd' n' p' f' hg hv
    · simp only [sysRead, h1] at hr
      rcases h2 : vfsGet m.vfs name with _ | file
      · rw [h2] at hr
        exact absurd hr (by simp)
      · rw [h2] at hr
        simp only at hr
        obtain rfl := Option.some_inj.1 hr
        intro fd' n' p' f' hg hv
        rcases fdGet_fdSet_cases _ _ _ _ _ hg with ⟨hfd, hw⟩ | hold
        · rw [Prod.mk.injEq] at hw
          obtain ⟨hn, hp⟩ := hw
          have hvm : vfsGet m.vfs name = some f' := hn ▸ hv
          rw [hvm] at h2
          obtain rfl := Option.some_inj.1 h2
          rw [hp]
          exact readLoop_count_le f' pos buf len 0 m.memory
            (by simpa using hinv fd name pos f' h1 hvm)
        · exact hinv fd' n' p' f' hold hv
  · intro m fd buf len m' hinv hbuf hw
    rcases h1 : fdGet m.fds fd with _ | ⟨name, pos⟩
    · simp only [sysWrite, h1] at hw
      obtain rfl := Option.some_inj.1 hw
      intro fd' n' p' f' hg hv
      exact hinv fd' n' p' f' hg hv
    · simp only [sysWrite, h1] at hw
      rcases h2 : vfsGet m.vfs name with _ | file
      · rw [h2] at hw
        exact absurd hw (by simp)
      · rw [h2] at hw
        simp only at hw
        obtain rfl := Option.some_inj.1 hw
        intro fd' n' p' f' hg hv
        have hv' : vfsGet (vfsInsert m.vfs name
            (writeLoop m.memory (name = "/dev/stdout") pos buf len 0 file)) n' = some f' := hv
        rw [vfsGet_vfsInsert] at hv'
        by_cases hnm : name = n'
        · subst hnm
          rw [if_pos rfl] at hv'
          obtain rfl := Option.some_inj.1 hv'
          by_cases hso : name = "/dev/stdout"
          · have hg' : fdGet m.fds fd' = some (name, p') := by
              have : fdGet (if name = "/dev/stdout" then m.fds
                else fdSet m.fds fd (name, pos + len)) fd' = some (name, p') := hg
              rwa [if_pos hso] at this
            have hp := hinv fd' name p' file hg' h2
            exact le_trans hp (writeLoop_len_mono m.memory _ pos buf len 0 file)
          · have hg' : fdGet (fdSet m.fds fd (name, pos + len)) fd' = some (name, p') := by
              have : fdGet (if name = "/dev/stdout" then m.fds
                else fdSet m.fds fd (name, pos + len)) fd' = some (name, p') := hg
              rwa [if_neg hso] at this
            rcases fdGet_fdSet_cases _ _ _ _ _ hg' with ⟨hfd, hw'⟩ | hold
            · rw [Prod.mk.injEq] at hw'
              obtain ⟨-, hp'⟩ := hw'
              rw [hp']
              have hdec : (decide (name = "/dev/stdout")) = false := by simp [hso]
              rw [hdec]
              have := writeLoop_len_write m.memory pos buf len 0 file
                (by simpa using hinv fd name pos file h1 h2) (by omega)
              simpa using this
            · have hp := hinv fd' name p' file hold h2
              exact le_trans hp (writeLoop_len_mono m.memory _ pos buf len 0 file)
        · rw [if_neg hnm] at hv'
          by_cases hso : name = "/dev/stdout"
          · have hg' : fdGet m.fds fd' = some (n', p') := by
              have : fdGet (if name = "/dev/stdout" then m.fds
                else fdSet m.fds fd (name, pos + len)) fd' = some (n', p') := hg
              rwa [if_pos hso] at this
            exact hinv fd' n' p' f' hg' hv'
          · have hg' : fdGet (fdSet m.fds fd (name, pos + len)) fd' = some (n', p') := by
              have : fdGet (if name = "/dev/stdout" then m.fds
                else fdSet m.fds fd (name, pos + len)) fd' = some (n', p') := hg
              rwa [if_neg hso] at this
            rcases fdGet_fdSet_cases _ _ _ _ _ hg' with ⟨rfl, hw'⟩ | hold
            · rw [Prod.mk.injEq] at hw'
              obtain ⟨rfl, -⟩ := hw'
              exact absurd rfl hnm
            · exact hinv fd' n' p' f' hold hv'

/-- Witness for C7: concrete READ and WRITE on `mC7` preserve the cursor
    invariant. -/
theorem c7_cursor_amended_witness : FdInv mC7r ∧ FdInv mC7w := by
  have hinv : FdInv mC7 := by
    intro fd name pos file hg hv
    rcases fd with _ | fd2
    · simp [mC7, fdGet] at hg
      obtain ⟨rfl, rfl⟩ := hg
      simp [mC7, vfsGet] at hv
      subst hv
      simp
    · simp [mC7, fdGet] at hg
  exact ⟨c7_cursor_amended.1 mC7 0 0 1 mC7r hinv (by decide),
         c7_cursor_amended.2 mC7 0 0 1 mC7w hinv (by decide) (by decide)⟩

set_option maxHeartbeats 1600000 in
/-- Helper: a token pass 2 emits as a plain opcode advances pass 1 by one
    byte and is not a label. -/
theorem classify_plain_size (t : String) (op : Nat) :
    classify t = .plain op → tokSize t = 1 ∧ endsColon t = false := by
  intro h
  by_cases h1 : t = "HALT"
  · subst h1; decide
  by_cases h2 : t = "PUSH"
  · subst h2; simp [classify] at h
  by_cases h3 : t = "ADD"
  · subst h3; decide
  by_cases h4 : t = "SUB"
  · subst h4; decide
  by_cases h5 : t = "NOT"
  · subst h5; decide
  by_cases h6 : t = "LT"
  · subst h6; decide
  by_cases h7 : t = "JMP"
  · subst h7; simp [classify] at h
  by_cases h8 : t = "JZ"
  · subst h8; simp [classify] at h
  by_cases h9 : t = "CALL"
  · subst h9; simp [classify] at h
  by_cases h10 : t = "RET"
  · subst h10; decide
  by_cases h11 : t = "GETBP"
  · subst h11; decide
  by_cases h12 : t = "LLOAD"
  · subst h12; simp [classify] at h
  by_cases h13 : t = "LSTORE"
  · subst h13; simp [classify] at h
  by_cases h14 : t = "MLOAD"
  · subst h14; decide
  by_cases h15 : t = "MSTORE"
  · subst h15; decide
  by_cases h16 : t = "MLOAD8"
  · subst h16; decide
  by_cases h17 : t = "MSTORE8"
  · subst h17; decide
  by_cases h18 : t = "SYSCALL"
  · subst h18; decide
  unfold classify at h
  rw [if_neg h1, if_neg h2, if_neg h3, if_neg h4, if_neg h5, if_neg h6, if_neg h7, if_neg h8, if_neg h9, if_neg h10, if_neg h11, if_neg h12, if_neg h13, if_neg h14, if_neg h15, if_neg h16, if_neg h17, if_neg h18] at h
  exact TokKind.noConfusion h

set_option maxHeartbeats 1600000 in
/-- Helper: a token pass 2 emits with an immediate advances pass 1 by nine
    bytes and is not a label. -/
theorem classify_imm_size (t : String) (op : Nat) (b : Bool) :
    classify t = .imm op b → tokSize t = 9 ∧ endsColon t = false := by
  intro h
  by_cases h1 : t = "HALT"
  · subst h1; simp [classify] at h
  by_cases h2 : t = "PUSH"
  · subst h2; decide
  by_cases h3 : t = "ADD"
  · subst h3; simp [classify] at h
  by_cases h4 : t = "SUB"
  · subst h4; simp [classify] at h
  by_cases h5 : t = "NOT"
  · subst h5; simp [classify] at h
  by_cases h6 : t = "LT"
  · subst h6; simp [classify] at h
  by_cases h7 : t = "JMP"
  · subst h7; decide
  by_cases h8 : t = "JZ"
  · subst h8; decide
  by_cases h9 : t = "CALL"
  · subst h9; decide
  by_cases h10 : t = "RET"
  · subst h10; simp [classify] at h
  by_cases h11 : t = "GETBP"
  · subst h11; simp [classify] at h
  by_cases h12 : t = "LLOAD"
  · subst h12; decide
  by_cases h13 : t = "LSTORE"
  · subst h13; decide
  by_cases h14 : t = "MLOAD"
  · subst h14; simp [classify] at h
  by_cases h15 : t = "MSTORE"
  · subst h15; simp [classify] at h
  by_cases h16 : t = "MLOAD8"
  · subst h16; simp [classify] at h
  by_cases h17 : t = "MSTORE8"
  · subst h17; simp [classify] at h
  by_cases h18 : t = "SYSCALL"
  · subst h18; simp [classify] at h
  unfold classify at h
  rw [if_neg h1, if_neg h2, if_neg h3, if_neg h4, if_neg h5, if_neg h6, if_neg h7, if_neg h8, if_neg h9, if_neg h10, if_neg h11, if_neg h12, if_neg h13, if_neg h14, if_neg h15, if_neg h16, if_neg h17, if_neg h18] at h
  exact TokKind.noConfusion h

set_option maxHeartbeats 1600000 in
/-- Helper: a token without a pass-2 arm, other than `MUL`/`DIV`, advances
    pass 1 by zero bytes. -/
theorem classify_other_size (t : String) :
    classify t = .other → t ≠ "MUL" → t ≠ "DIV" → tokSize t = 0 := by
  intro h hm hd
  by_cases h1 : t = "HALT"
  · subst h1; simp [classify] at h
  by_cases h2 : t = "PUSH"
  · subst h2; simp [classify] at h
  by_cases h3 : t = "ADD"
  · subst h3; simp [classify] at h
  by_cases h4 : t = "SUB"
  · subst h4; simp [classify] at h
  by_cases h5 : t = "NOT"
  · subst h5; simp [classify] at h
  by_cases h6 : t = "LT"
  · subst h6; simp [classify] at h
  by_cases h7 : t = "JMP"
  · subst h7; simp [classify] at h
  by_cases h8 : t = "JZ"
  · subst h8; simp [classify] at h
  by_cases h9 : t = "CALL"
  · subst h9; simp [classify] at h
  by_cases h10 : t = "RET"
  · subst h10; simp [classify] at h
  by_cases h11 : t = "GETBP"
  · subst h11; simp [classify] at h
  by_cases h12 : t = "LLOAD"
  · subst h12; simp [classify] at h
  by_cases h13 : t = "LSTORE"
  · subst h13; simp [classify] at h
  by_cases h14 : t = "MLOAD"
  · subst h14; simp [classify] at h
  by_cases h15 : t = "MSTORE"
  · subst h15; simp [classify] at h
  by_cases h16 : t = "MLOAD8"
  · subst h16; simp [classify] at h
  by_cases h17 : t = "MSTORE8"
  · subst h17; simp [classify] at h
  by_cases h18 : t = "SYSCALL"
  · subst h18; simp [classify] at h
  rw [tokSize]
  rw [if_neg (by simp [h2, h7, h8, h12, h13, h9])]
  rw [if_neg (by simp [h1, h3, h4, h6, h10, h11, h14, h15, h16, h17, h5, h18, hm, hd])]

/-- Helper: generalized pass-size agreement, by strong induction on the
    token count. -/
theorem pass1_pass2_size (N : Nat) :
    ∀ (tokens : List String), tokens.length ≤ N →
      ∀ (labels S : List (String × Nat)) (addr : Nat) (code : List Nat),
        noMulDiv tokens = true → opsOk tokens = true →
        pass2 labels tokens = some code →
        (pass1 tokens addr S).2 = addr + code.length := by
  induction N with
  | zero =>
    intro tokens hlen labels S addr code _ _ h2
    rw [List.length_eq_zero.1 (Nat.le_zero.1 hlen)] at h2 ⊢
    simp only [pass2, Option.some_inj] at h2
    simp [pass1, ← h2]
  | succ n ih =>
    intro tokens hlen labels S addr code hmd hok h2
    cases tokens with
    | nil =>
      simp only [pass2, Option.some_inj] at h2
      simp [pass1, ← h2]
    | cons t rest =>
      have hmd' : noMulDiv rest = true := by
        simp only [noMulDiv, List.all_cons, Bool.and_eq_true] at hmd
        exact hmd.2
      cases hcl : classify t with
      | plain op =>
        obtain ⟨hts, hec⟩ := classify_plain_size t op hcl
        simp only [pass2, hcl] at h2
        cases hrec : pass2 labels rest with
        | none => rw [hrec] at h2; exact absurd h2 (by simp)
        | some code' =>
          rw [hrec] at h2
          obtain rfl := Option.some_inj.1 h2
          rw [pass1, if_neg (by rw [hec]; exact Bool.false_ne_true), hts]
          have hok' : opsOk rest = true := by
            simp only [opsOk, Bool.and_eq_true] at hok
            exact hok.2
          have hlen' : rest.length ≤ n := by
            simp only [List.length_cons] at hlen
            omega
          have := ih rest hlen' labels S (addr + 1) code' hmd' hok' hrec
          rw [this, List.length_cons]
          omega
      | imm op isLbl =>
        obtain ⟨hts, hec⟩ := classify_imm_size t op isLbl hcl
        cases rest with
        | nil =>
          simp only [pass2, hcl] at h2
          exact absurd h2 (by simp)
        | cons u rest' =>
          simp only [pass2, hcl] at h2
          cases hv : (if isLbl then lblGet labels u else parseU64 u) with
          | none =>
            simp only [hv] at h2
            exact absurd h2 (by simp)
          | some v =>
            simp only [hv] at h2
            cases hrec : pass2 labels rest' with
            | none =>
              simp only [hrec] at h2
              exact absurd h2 (by simp)
            | some code' =>
              simp only [hrec] at h2
              obtain rfl := Option.some_inj.1 h2
              have hok2 : tokSize u = 0 ∧ opsOk rest' = true := by
                simp only [opsOk, hcl, isImm, Bool.and_eq_true, Bool.or_eq_true,
                  Bool.not_eq_true', beq_iff_eq, List.headD_cons] at hok
                obtain ⟨hA, hB, hC⟩ := hok
                first
                | exact ⟨hA, hC⟩
                | (rcases hA with hf | htu
                   · exact absurd hf (by decide)
                   · exact ⟨htu, hC⟩)
              obtain ⟨htu, hok'⟩ := hok2
              have hmd'' : noMulDiv rest' = true := by
                simp only [noMulDiv, List.all_cons, Bool.and_eq_true] at hmd'
                exact hmd'.2
              have hlen' : rest'.length ≤ n := by
                simp only [List.length_cons] at hlen
                omega
              rw [pass1, if_neg (by rw [hec]; exact Bool.false_ne_true), hts]
              rw [pass1]
              by_cases hcu : endsColon u = true
              · rw [if_pos hcu]
                have := ih rest' hlen' labels
                  (lblInsert S (trimColons u) (addr + 9)) (addr + 9) code' hmd'' hok' hrec
                rw [this, List.length_cons, List.length_append]
                simp [le8]
                omega
              · rw [if_neg hcu, htu]
                have := ih rest' hlen' labels S (addr + 9 + 0) code' hmd'' hok' hrec
                rw [this, List.length_cons, List.length_append]
                simp [le8]
                omega
      | other =>
        simp only [pass2, hcl] at h2
        have hok' : opsOk rest = true := by
          simp only [opsOk, Bool.and_eq_true] at hok
          exact hok.2
        have hlen' : rest.length ≤ n := by
          simp only [List.length_cons] at hlen
          omega
        rw [pass1]
        by_cases hct : endsColon t = true
        · rw [if_pos hct]
          exact ih rest hlen' labels (lblInsert S (trimColons t) addr) addr code hmd' hok' h2
        · rw [if_neg hct]
          have hmdt : t ≠ "MUL" ∧ t ≠ "DIV" := by
            simp only [noMulDiv, List.all_cons, Bool.and_eq_true, bne_iff_ne] at hmd
            exact hmd.1
          rw [classify_other_size t hcl hmdt.1 hmdt.2]
          exact ih rest hlen' labels S (addr + 0) code hmd' hok' h2

/-- Helper: pass 1 over a concatenation threads its accumulator. -/
theorem pass1_append (xs : List String) :
    ∀ (ys : List String) (addr : Nat) (S : List (String × Nat)),
      pass1 (xs ++ ys) addr S = pass1 ys (pass1 xs addr S).2 (pass1 xs addr S).1 := by
  induction xs with
  | nil => intro ys addr S; simp [pass1]
  | cons t rest ih =>
    intro ys addr S
    rw [List.cons_append, pass1, pass1]
    by_cases hct : endsColon t = true
    · rw [if_pos hct, if_pos hct, ih]
    · rw [if_neg hct, if_neg hct, ih]

/-- Helper: `lblInsert` then lookup of the same key. -/
theorem lblGet_lblInsert_self (S : List (String × Nat)) (k : String) (v : Nat) :
    lblGet (lblInsert S k v) k = some v := by
  induction S with
  | nil => simp [lblInsert, lblGet]
  | cons p rest ih =>
    obtain ⟨pk, pv⟩ := p
    by_cases hk : pk = k
    · rw [lblInsert, if_pos hk, lblGet, if_pos hk]
    · rw [lblInsert, if_neg hk, lblGet, if_neg hk, ih]

/-- Helper: `lblInsert` does not disturb lookups of other keys. -/
theorem lblGet_lblInsert_ne (S : List (String × Nat)) (k k' : String) (v : Nat)
    (h : k ≠ k') : lblGet (lblInsert S k v) k' = lblGet S k' := by
  induction S with
  | nil => simp [lblInsert, lblGet, h]
  | cons p rest ih =>
    obtain ⟨pk, pv⟩ := p
    by_cases hk : pk = k
    · subst hk
      rw [lblInsert, if_pos rfl, lblGet, lblGet, if_neg h, if_neg h]
    · rw [lblInsert, if_neg hk, lblGet, lblGet, ih]

/-- Helper: pass 1 over tokens that never define `key` leaves its binding
    alone. -/
theorem pass1_lblGet_frozen (key : String) :
    ∀ (ts : List String) (addr : Nat) (S : List (String × Nat)),
      (∀ t ∈ ts, endsColon t = true → trimColons t ≠ key) →
      lblGet (pass1 ts addr S).1 key = lblGet S key := by
  intro ts
  induction ts with
  | nil => intro addr S _; simp [pass1]
  | cons t rest ih =>
    intro addr S hnone
    rw [pass1]
    by_cases hct : endsColon t = true
    · rw [if_pos hct]
      rw [ih _ _ (fun u hu => hnone u (List.mem_cons_of_mem t hu))]
      exact lblGet_lblInsert_ne S (trimColons t) key addr
        (hnone t (List.mem_cons_self t rest) hct)
    · rw [if_neg hct]
      exact ih _ _ (fun u hu => hnone u (List.mem_cons_of_mem t hu))

/-- **C4** (corrected).  Provided the token stream contains no `MUL`/`DIV`
    (pass 1 counts them as 1 byte but pass 2 has no arm for them and emits
    nothing) and no immediate operand token is itself a mnemonic (pass 1
    would count the operand again), the pass-2 output size equals the
    pass-1 final address, and any label that is not redefined later
    resolves to the size of the code emitted for the tokens before it —
    the offset of the next emitted instruction. -/
theorem c4_pass_sizes_amended :
    (∀ (tokens : List String) (labels S : List (String × Nat)) (addr : Nat)
        (code : List Nat),
      noMulDiv tokens = true → opsOk tokens = true →
      pass2 labels tokens = some code →
      (pass1 tokens addr S).2 = addr + code.length) ∧
    (∀ (pre post : List String) (l : String) (labels : List (String × Nat))
        (codePre : List Nat),
      noMulDiv pre = true → opsOk pre = true →
      pass2 labels pre = some codePre →
      endsColon l = true →
      (∀ t ∈ post, endsColon t = true → trimColons t ≠ trimColons l) →
      lblGet (pass1 (pre ++ l :: post) 0 []).1 (trimColons l) = some codePre.length) := by
  constructor
  · intro tokens labels S addr code hmd hok h2
    exact pass1_pass2_size tokens.length tokens le_rfl labels S addr code hmd hok h2
  · intro pre post l labels codePre hmd hok h2 hl hfree
    rw [pass1_append]
    have hsz : (pass1 pre 0 []).2 = codePre.length := by
      simpa using pass1_pass2_size pre.length pre le_rfl labels [] 0 codePre hmd hok h2
    rw [pass1, if_pos hl, pass1_lblGet_frozen _ _ _ _ hfree,
        lblGet_lblInsert_self, hsz]

/-- Witness for C4: the unit `main: PUSH 5 CALL main HALT` has pass-1
    address 19 and 19 emitted bytes, and `main` resolves to offset 0. -/
theorem c4_pass_sizes_amended_witness :
    (pass1 asmTokens 0 []).2 = 0 + 19 ∧
    lblGet (pass1 ([] ++ "main:" :: ["PUSH", "5", "CALL", "main", "HALT"]) 0 []).1
      (trimColons "main:") = some ([] : List Nat).length :=
  ⟨c4_pass_sizes_amended.1 asmTokens (pass1 asmTokens 0 []).1 [] 0
      [0x10, 5, 0, 0, 0, 0, 0, 0, 0, 0x40, 0, 0, 0, 0, 0, 0, 0, 0, 0x00]
      (by decide) (by decide) (by decide),
   c4_pass_sizes_amended.2 [] ["PUSH", "5", "CALL", "main", "HALT"] "main:" [] []
      (by decide) (by decide) (by decide) (by decide) (by decide)⟩

/-- **C4** counterexample: the stream `MUL` assembles without error to 0
    bytes, but pass 1 computes final address 1. -/
theorem c4_counterexample :
    pass2 (pass1 ["MUL"] 0 []).1 ["MUL"] = some [] ∧
    (pass1 ["MUL"] 0 []).2 = 1 ∧ ([] : List Nat).length ≠ 1 := by
  decide

/-- **C7** counterexample: a WRITE of 1 byte from out-of-range buffer
    address 5 on fd 3 writes nothing (the file stays empty) yet advances
    the cursor to 1 — cursor 1 > length 0 at the next instruction
    boundary, refuting the invariant as claimed. -/
theorem c7_counterexample :
    step mCursorBug =
      .ok true { mCursorBug with ip := 1, fds := [(3, "f", 1)], stack := [1] } ∧
    fdGet [(3, "f", 1)] 3 = some ("f", 1) ∧
    vfsGet mCursorBug.vfs "f" = some [] ∧ ¬ (1 ≤ ([] : List Nat).length) := by
  decide

/-- Helper: `fdInsert` then lookup of the same fd. -/
theorem fdGet_fdInsert_self (l : List (Nat × String × Nat)) (k : Nat) (v : String × Nat) :
    fdGet (fdInsert l k v) k = some v := by
  induction l with
  | nil => simp [fdInsert, fdGet]
  | cons p rest ih =>
    obtain ⟨pk, pv⟩ := p
    by_cases hk : pk = k
    · rw [fdInsert, if_pos hk, fdGet, if_pos hk]
    · rw [fdInsert, if_neg hk, fdGet, if_neg hk, ih]

/-- Helper: `getD` after `set` at the written index. -/
theorem getD_set_self (l : List Nat) (i v : Nat) (h : i < l.length) :
    (l.set i v).getD i 0 = v := by
  simp [List.getD_eq_getElem?_getD, List.getElem?_set_self, h]

/-- Helper: `getD` after `set` at a different index. -/
theorem getD_set_ne (l : List Nat) (i j v : Nat) (h : i ≠ j) :
    (l.set i v).getD j 0 = l.getD j 0 := by
  simp [List.getD_eq_getElem?_getD, List.getElem?_set_ne, h]

/-- Helper: `getD` of an append, inside the left list. -/
theorem getD_append_lt (l l' : List Nat) (j : Nat) (h : j < l.length) :
    (l ++ l').getD j 0 = l.getD j 0 := by
  simp [List.getD_eq_getElem?_getD, List.getElem?_append, h]

/-- Helper: `getD` of a one-element append at the seam. -/
theorem getD_append_len (l : List Nat) (v : Nat) :
    (l ++ [v]).getD l.length 0 = v := by
  simp [List.getD_eq_getElem?_getD]

/-- Helper: an in-bounds non-stdout WRITE leaves indices below the loop
    counter untouched. -/
theorem writeLoop_getD_lt (mem : List Nat) (buf : Nat) :
    ∀ (fuel i : Nat) (file : List Nat) (j : Nat),
      buf + i + fuel ≤ mem.length → i ≤ file.length → j < i →
      (writeLoop mem false 0 buf fuel i file).getD j 0 = file.getD j 0 := by
  intro fuel
  induction fuel with
  | zero => intro i file j _ _ _; rfl
  | succ fu ih =>
    intro i file j hb hi hj
    rw [writeLoop]
    have hbuf : buf + i < mem.length := by omega
    simp only [hbuf, if_true, Bool.false_eq_true, if_false, Nat.zero_add]
    by_cases hp : i < file.length
    · rw [if_pos hp]
      rw [ih (i + 1) _ j (by omega) (by simp; omega) (by omega)]
      exact getD_set_ne file i j _ (by omega)
    · rw [if_neg hp]
      have hieq : i = file.length := by omega
      rw [ih (i + 1) _ j (by omega) (by simp; omega) (by omega)]
      exact getD_append_lt file _ j (by omega)

/-- Helper: an in-bounds non-stdout WRITE starting at cursor 0 stores the
    memory bytes `mem[buf+j]` at file offsets `j`. -/
theorem writeLoop_getD (mem : List Nat) (buf : Nat) :
    ∀ (fuel i : Nat) (file : List Nat) (j : Nat),
      buf + i + fuel ≤ mem.length → i ≤ file.length → i ≤ j → j < i + fuel →
      (writeLoop mem false 0 buf fuel i file).getD j 0 = mem.getD (buf + j) 0 := by
  intro fuel
  induction fuel with
  | zero => intro i file j _ _ _ hj; omega
  | succ fu ih =>
    intro i file j hb hi hij hj
    rw [writeLoop]
    have hbuf : buf + i < mem.length := by omega
    simp only [hbuf, if_true, Bool.false_eq_true, if_false, Nat.zero_add]
    by_cases hji : j = i
    · subst hji
      by_cases hp : j < file.length
      · rw [if_pos hp]
        rw [writeLoop_getD_lt mem buf fu (j + 1) _ j (by omega) (by simp; omega) (by omega)]
        exact getD_set_self file j _ hp
      · rw [if_neg hp]
        have hieq : j = file.length := by omega
        rw [writeLoop_getD_lt mem buf fu (j + 1) _ j (by omega) (by simp; omega) (by omega)]
        rw [hieq]
        exact getD_append_len file _
    · have hij' : i + 1 ≤ j := by omega
      by_cases hp : i < file.length
      · rw [if_pos hp]
        exact ih (i + 1) _ j (by omega) (by simp; omega) hij' (by omega)
      · rw [if_neg hp]
        exact ih (i + 1) _ j (by omega) (by simp; omega) hij' (by omega)

/-- Helper: the READ loop does not change the memory length. -/
theorem readLoop_len (file : List Nat) (buf : Nat) :
    ∀ (fuel i : Nat) (mem : List Nat),
      (readLoop file 0 buf fuel i mem).1.length = mem.length := by
  intro fuel
  induction fuel with
  | zero => intro i mem; rfl
  | succ fu ih =>
    intro i mem
    rw [readLoop]
    split
    · rw [ih]; simp
    · rfl

/-- Helper: the READ loop leaves addresses below `buf + i` untouched. -/
theorem readLoop_getD_lo (file : List Nat) (buf : Nat) :
    ∀ (fuel i : Nat) (mem : List Nat) (a : Nat), a < buf + i →
      (readLoop file 0 buf fuel i mem).1.getD a 0 = mem.getD a 0 := by
  intro fuel
  induction fuel with
  | zero => intro i mem a _; rfl
  | succ fu ih =>
    intro i mem a ha
    rw [readLoop]
    split
    · rw [ih (i + 1) _ a (by omega)]
      exact getD_set_ne mem (buf + i) a _ (by omega)
    · rfl

/-- Helper: a READ whose request fits in the file and the buffer copies
    the full count. -/
theorem readLoop_count (file : List Nat) (buf : Nat) :
    ∀ (fuel i : Nat) (mem : List Nat),
      i + fuel ≤ file.length → buf + i + fuel ≤ mem.length →
      (readLoop file 0 buf fuel i mem).2 = i + fuel := by
  intro fuel
  induction fuel with
  | zero => intro i mem _ _; rfl
  | succ fu ih =>
    intro i mem hf hb
    rw [readLoop]
    rw [if_pos (by constructor <;> [skip; skip] <;> omega)]
    rw [ih (i + 1) _ (by omega) (by simp; omega)]
    omega

/-- Helper: an in-bounds READ starting at cursor 0 copies file byte `j` to
    memory address `buf + j`. -/
theorem readLoop_getD (file : List Nat) (buf : Nat) :
    ∀ (fuel i : Nat) (mem : List Nat) (j : Nat),
      i + fuel ≤ file.length → buf + i + fuel ≤ mem.length → i ≤ j → j < i + fuel →
      (readLoop file 0 buf fuel i mem).1.getD (buf + j) 0 = file.getD j 0 := by
  intro fuel
  induction fuel with
  | zero => intro i mem j _ _ _ hj; omega
  | succ fu ih =>
    intro i mem j hf hb hij hj
    rw [readLoop]
    rw [if_pos (by constructor <;> [skip; skip] <;> omega)]
    by_cases hji : j = i
    · subst hji
      rw [readLoop_getD_lo file buf fu (j + 1) _ (buf + j) (by omega)]
      rw [Nat.zero_add]
      exact getD_set_self mem (buf + j) _ (by omega)
    · rw [ih (i + 1) _ j (by omega) (by simp; omega) (by omega) (by omega)]

/-- **C6** (confirmed).  For a non-special path `p` located at `addr` in
    memory: OPEN(p), WRITE of the `n` bytes at `buf` on the returned fd,
    OPEN(p) again (yielding the fresh fd `next_fd + 1` at cursor 0), then
    READ of `n` bytes into `buf2` succeeds, returns count `n`, and leaves
    in memory at `buf2` exactly the bytes that were written from `buf`. -/
theorem c6_vfs_roundtrip (m : Machine) (addr buf buf2 n : Nat)
    (_hp1 : readCString m.memory addr ≠ "/dev/stdin")
    (hp2 : readCString m.memory addr ≠ "/dev/stdout")
    (hbuf : buf + n ≤ m.memory.length)
    (hbuf2 : buf2 + n ≤ m.memory.length) :
    ∃ m2 m4 : Machine,
      sysWrite (sysOpen m addr) m.next_fd buf n = some m2 ∧
      sysRead (sysOpen m2 addr) (m.next_fd + 1) buf2 n = some m4 ∧
      m4.stack = n :: (sysOpen m2 addr).stack ∧
      extract m4.memory buf2 n = extract m.memory buf n := by
  have hfdget1 : fdGet (sysOpen m addr).fds m.next_fd =
      some (readCString m.memory addr, 0) := by
    simp only [sysOpen]
    exact fdGet_fdInsert_self _ _ _
  obtain ⟨file0, hfile0⟩ :
      ∃ f, vfsGet (sysOpen m addr).vfs (readCString m.memory addr) = some f := by
    simp only [sysOpen]
    cases hvm : vfsGet m.vfs (readCString m.memory addr) with
    | none => exact ⟨[], by simp [hvm, vfsGet_vfsInsert]⟩
    | some f => exact ⟨f, by simp [hvm]⟩
  have hdec : (decide (readCString m.memory addr = "/dev/stdout")) = false := by
    simp [hp2]
  have hw : sysWrite (sysOpen m addr) m.next_fd buf n =
      some { sysOpen m addr with
             vfs := vfsInsert (sysOpen m addr).vfs (readCString m.memory addr)
               (writeLoop m.memory false 0 buf n 0 file0),
             fds := fdSet (sysOpen m addr).fds m.next_fd
               (readCString m.memory addr, 0 + n),
             stack := n :: (sysOpen m addr).stack } := by
    simp only [sysWrite, hfdget1, hfile0, hdec, if_neg hp2]
    rfl
  have hfile1n : n ≤ (writeLoop m.memory false 0 buf n 0 file0).length := by
    simpa using writeLoop_len_write m.memory 0 buf n 0 file0 (by simp) (by omega)
  have hcount : (readLoop (writeLoop m.memory false 0 buf n 0 file0) 0 buf2 n 0 m.memory).2
      = n := by
    simpa using readLoop_count (writeLoop m.memory false 0 buf n 0 file0) buf2 n 0 m.memory
      (by simpa using hfile1n) (by omega)
  have key : ∀ M2 : Machine, M2.memory = m.memory → M2.next_fd = m.next_fd + 1 →
      vfsGet M2.vfs (readCString m.memory addr) =
        some (writeLoop m.memory false 0 buf n 0 file0) →
      ∃ m4, sysRead (sysOpen M2 addr) (m.next_fd + 1) buf2 n = some m4 ∧
        m4.stack = n :: (sysOpen M2 addr).stack ∧
        extract m4.memory buf2 n = extract m.memory buf n := by
    intro M2 hmem hfd hvfs
    have hname : readCString M2.memory addr = readCString m.memory addr := by rw [hmem]
    have hfdget2 : fdGet (sysOpen M2 addr).fds (m.next_fd + 1) =
        some (readCString m.memory addr, 0) := by
      simp only [sysOpen, hname, hfd]
      exact fdGet_fdInsert_self _ _ _
    have hvfs3 : vfsGet (sysOpen M2 addr).vfs (readCString m.memory addr) =
        some (writeLoop m.memory false 0 buf n 0 file0) := by
      simp [sysOpen, hname, hvfs]
    have hmem3 : (sysOpen M2 addr).memory = m.memory := hmem
    cases hr : sysRead (sysOpen M2 addr) (m.next_fd + 1) buf2 n with
    | none =>
      simp only [sysRead, hfdget2, hvfs3] at hr
      exact absurd hr (by simp)
    | some m4 =>
      simp only [sysRead, hfdget2, hvfs3, hmem3] at hr
      obtain rfl := Option.some_inj.1 hr
      refine ⟨_, rfl, ?_, ?_⟩
      · simp only [hcount]
      · simp only [hcount]
        unfold extract
        refine List.map_congr_left ?_
        intro j hj
        simp only [List.mem_range] at hj
        rw [readLoop_getD (writeLoop m.memory false 0 buf n 0 file0) buf2 n 0 m.memory j
            (by simpa using hfile1n) (by omega) (Nat.zero_le j) (by omega)]
        exact writeLoop_getD m.memory buf n 0 file0 j (by omega) (Nat.zero_le _)
          (Nat.zero_le j) (by omega)
  obtain ⟨m4, h1, h2, h3⟩ := key
    { sysOpen m addr with
      vfs := vfsInsert (sysOpen m addr).vfs (readCString m.memory addr)
        (writeLoop m.memory false 0 buf n 0 file0),
      fds := fdSet (sysOpen m addr).fds m.next_fd (readCString m.memory addr, 0 + n),
      stack := n :: (sysOpen m addr).stack }
    rfl rfl (by rw [vfsGet_vfsInsert]; simp)
  exact ⟨_, m4, hw, h1, h2, h3⟩

/-- Witness for C6: writing bytes 65, 66 to the empty-named file (path at
    address 2 of `mC6`) and reading them back through a fresh fd returns
    count 2 and reproduces the bytes at address 2. -/
theorem c6_vfs_roundtrip_witness :
    ∃ m2 m4 : Machine,
      sysWrite (sysOpen mC6 2) mC6.next_fd 0 2 = some m2 ∧
      sysRead (sysOpen m2 2) (mC6.next_fd + 1) 2 2 = some m4 ∧
      m4.stack = 2 :: (sysOpen m2 2).stack ∧
      extract m4.memory 2 2 = extract mC6.memory 0 2 :=
  c6_vfs_roundtrip mC6 2 0 2 2 (by decide) (by decide) (by decide) (by decide)

/-- Helper: the READ syscall body does not move `bp`, `sp` or the call
    stack. -/
theorem sysRead_frame (x : Machine) (fd buf len : Nat) (y : Machine)
    (h : sysRead x fd buf len = some y) :
    y.bp = x.bp ∧ y.sp = x.sp ∧ y.call_stack = x.call_stack := by
  unfold sysRead at h
  repeat' split at h
  all_goals try exact Option.noConfusion h
  all_goals injection h with h2
  all_goals subst h2
  all_goals exact ⟨rfl, rfl, rfl⟩

/-- Helper: the WRITE syscall body does not move `bp`, `sp` or the call
    stack. -/
theorem sysWrite_frame (x : Machine) (fd buf len : Nat) (y : Machine)
    (h : sysWrite x fd buf len = some y) :
    y.bp = x.bp ∧ y.sp = x.sp ∧ y.call_stack = x.call_stack := by
  unfold sysWrite at h
  repeat' split at h
  all_goals try exact Option.noConfusion h
  all_goals injection h with h2
  all_goals subst h2
  all_goals exact ⟨rfl, rfl, rfl⟩

/-- Helper: one non-faulting step either leaves the call stack and `bp`
    alone (never shrinking `sp`), pushes a frame saving the current `bp`
    (CALL), or pops the top frame restoring its saved `bp` and return
    address while leaving the value stack alone (RET). -/
theorem step_cs_shape (m : Machine) (c : Bool) (m' : Machine) (h : step m = .ok c m') :
    (m'.call_stack = m.call_stack ∧ m'.bp = m.bp ∧ m.sp ≤ m'.sp) ∨
    (m'.call_stack = (m.ip + 1 + 8, m.bp) :: m.call_stack ∧ m'.bp = m.sp ∧ m'.sp = m.sp) ∨
    (∃ r b rest, m.call_stack = (r, b) :: rest ∧ m'.call_stack = rest ∧
      m'.bp = b ∧ m'.sp = m.bp ∧ m'.ip = r ∧ m'.stack = m.stack) := by
  unfold step at h
  repeat' split at h
  all_goals try exact StepOut.noConfusion h
  all_goals injection h with h1 h2
  all_goals subst h2
  all_goals try exact Or.inl ⟨rfl, rfl, Nat.le_refl _⟩
  all_goals first
    | (refine Or.inl ⟨rfl, rfl, ?_⟩
       dsimp only
       omega)
    | exact Or.inr (Or.inl ⟨rfl, rfl, rfl⟩)
    | (refine Or.inr (Or.inr ⟨_, _, _, ?_, rfl, rfl, rfl, rfl, rfl⟩)
       assumption)
    | skip
  all_goals rename_i hsys
  case h_2.h_18.h_1.h_3.h_1.h_2 =>
    obtain ⟨hb, hs, hcs⟩ := sysWrite_frame _ _ _ _ _ hsys
    exact Or.inl ⟨hcs, hb, le_of_eq hs.symm⟩
  all_goals
    obtain ⟨hb, hs, hcs⟩ := sysRead_frame _ _ _ _ _ hsys
    exact Or.inl ⟨hcs, hb, le_of_eq hs.symm⟩

/-- Helper: a saved base pointer buried in a descending chain bounds the
    top. -/
theorem bpChain_suffix_le (r B : Nat) (base : List (Nat × Nat)) :
    ∀ (pre : List (Nat × Nat)) (cur : Nat),
      bpChain (pre ++ (r, B) :: base) cur → B ≤ cur := by
  intro pre
  induction pre with
  | nil => intro cur hc; exact hc.1
  | cons q rest ih =>
    intro cur hc
    obtain ⟨qr, qb⟩ := q
    exact le_trans (ih qb hc.2) hc.1

/-- Helper: one non-faulting step preserves the frame invariant. -/
theorem step_frameInv (m : Machine) (c : Bool) (m' : Machine)
    (hfi : FrameInv m) (h : step m = .ok c m') : FrameInv m' := by
  rcases step_cs_shape m c m' h with ⟨h1, h2, h3⟩ | ⟨h1, h2, h3⟩ |
    ⟨r, b, rest, h1, h2, h3, h4, _, _⟩
  · exact ⟨h2 ▸ le_trans hfi.1 h3, h1 ▸ h2 ▸ hfi.2⟩
  · refine ⟨h2 ▸ h3 ▸ le_refl _, ?_⟩
    rw [h1, h2]
    exact ⟨hfi.1, hfi.2⟩
  · have hc := hfi.2
    rw [h1] at hc
    exact ⟨h3 ▸ h4 ▸ hc.1, h2 ▸ h3 ▸ hc.2⟩

/-- **C5** (confirmed).  Executing CALL pushes `(ip+9, bp)` and sets
    `bp := sp ≥ bp` (so `bp` does not decrease at the call, given the frame
    invariant); while the pushed frame remains on the call stack, `bp`
    stays at least the caller's `bp`; and the step that pops that frame —
    the matching RET — restores `bp` to exactly its value at the CALL,
    sets `ip` to the instruction after the CALL, and leaves the value
    stack unchanged (the top of the value stack survives as the return
    value). -/
theorem c5_call_ret_frame (m : Machine) (dest : Nat)
    (hfi : FrameInv m)
    (hop : m.memory[m.ip]? = some 0x40)
    (himm : readU64 m.memory (m.ip + 1) = some dest) :
    (step m = .ok true { m with call_stack := (m.ip + 1 + 8, m.bp) :: m.call_stack,
                                bp := m.sp, ip := dest } ∧
     m.bp ≤ m.sp ∧
     InCall m.bp (m.ip + 1 + 8) m.call_stack
       { m with call_stack := (m.ip + 1 + 8, m.bp) :: m.call_stack,
                bp := m.sp, ip := dest }) ∧
    (∀ m' : Machine, InCall m.bp (m.ip + 1 + 8) m.call_stack m' →
       m.bp ≤ m'.bp ∧
       ∀ (c : Bool) (m'' : Machine), step m' = .ok c m'' →
         (InCall m.bp (m.ip + 1 + 8) m.call_stack m'' ∨
          (m'.call_stack = (m.ip + 1 + 8, m.bp) :: m.call_stack ∧
           m''.bp = m.bp ∧ m''.ip = m.ip + 1 + 8 ∧ m''.stack = m'.stack ∧
           m''.call_stack = m.call_stack))) := by
  constructor
  · refine ⟨by simp [step, hop, himm], hfi.1, ⟨[], by simp⟩, ?_, ?_⟩
    · exact le_refl _
    · exact ⟨hfi.1, hfi.2⟩
  · intro m' hin
    obtain ⟨⟨pre, hpre⟩, hfi'⟩ := hin
    have hble : m.bp ≤ m'.bp := by
      have := hfi'.2
      rw [hpre] at this
      exact bpChain_suffix_le _ _ _ pre m'.bp this
    refine ⟨hble, ?_⟩
    intro c m'' hstep
    have hfi'' := step_frameInv m' c m'' hfi' hstep
    rcases step_cs_shape m' c m'' hstep with ⟨h1, h2, h3⟩ | ⟨h1, h2, h3⟩ |
      ⟨r, b, rest, h1, h2, h3, h4, h5, h6⟩
    · exact Or.inl ⟨⟨pre, h1 ▸ hpre⟩, hfi''⟩
    · exact Or.inl ⟨⟨(m'.ip + 1 + 8, m'.bp) :: pre, by rw [h1, hpre]; rfl⟩, hfi''⟩
    · cases pre with
      | nil =>
        simp only [List.nil_append] at hpre
        rw [hpre] at h1
        obtain ⟨hrb, hrest⟩ : (m.ip + 1 + 8, m.bp) = (r, b) ∧ m.call_stack = rest := by
          have := List.cons.injEq .. ▸ h1
          exact ⟨this.1, this.2⟩
        obtain ⟨hr, hb⟩ := Prod.mk.injEq .. ▸ hrb
        exact Or.inr ⟨hpre, by rw [h3, ← hb], by rw [h5, ← hr], h6, by rw [h2, ← hrest]⟩
      | cons q pre' =>
        rw [hpre] at h1
        have hq : q = (r, b) ∧ pre' ++ (m.ip + 1 + 8, m.bp) :: m.call_stack = rest := by
          have := List.cons.injEq .. ▸ h1
          exact ⟨this.1, this.2⟩
        exact Or.inl ⟨⟨pre', by rw [h2, ← hq.2]⟩, hfi''⟩

/-- Witness for C5: the concrete machine `mC5` executes its `CALL 10`,
    pushing frame `(9, 0)` and entering the call. -/
theorem c5_call_ret_frame_witness :
    step mC5 = .ok true { mC5 with call_stack := (mC5.ip + 1 + 8, mC5.bp) :: mC5.call_stack,
                                   bp := mC5.sp, ip := 10 } :=
  (c5_call_ret_frame mC5 10 ⟨le_refl 0, trivial⟩ (by decide) (by decide)).1.1

end VfsCore
